import Mathlib

/-!
Verification of the screenshot indexing and search tool: the description
store (load and save over a JSON file), the ingestion loop of
index_screenshots.py, the single-item path process_single_image, the
ranking-response line parsing of search_screenshots.py, and the /search
endpoint of app.py.

Modelling conventions:
- Python strings are modelled as lists of characters; "isdigit" and the
  default "strip" are modelled over their ASCII behaviour, which agrees
  with Python on ASCII text.
- The external model call is a parameter: search receives the reply text
  as an Option (none models a transport or model failure, which the code
  catches and turns into an empty result), and ingestion receives a
  describe oracle from path to description text (the empty string models
  the failure value that get_image_description returns on any exception).
- A Python dict of strings is an association list in insertion order;
  membership and indexing are List.lookup.
- The persisted JSON document is modelled by the mapping it denotes:
  json.dump followed by json.load on a dict of strings round-trips
  losslessly, and the indent pretty-printing does not affect the parsed
  value. File absence and undecodable content are separate states.
- The one exception Python can raise inside the per-line try block of
  search_screenshots is the ValueError of int applied to an empty digit
  string; it is modelled with Except, and the except clause of the code
  is the error branch of the loop.
-/

/-- A Python string, as its list of characters. -/
abbrev Str := List Char

/-- Embed a Lean string literal as a character list. -/
def str (s : String) : Str := s.toList

/-- The description store: a dict from identifier to description, in
insertion order. -/
abbrev Store := List (Str × Str)

/-- ASCII whitespace, as stripped by the Python str.strip default. -/
def isSpaceChar (c : Char) : Bool :=
  c = ' ' || c = '\t' || c = '\n' || c = '\r' || c = '\x0b' || c = '\x0c'

/-- Python str.strip with no argument: drop whitespace from both ends. -/
def pyStrip (s : Str) : Str :=
  ((s.dropWhile isSpaceChar).reverse.dropWhile isSpaceChar).reverse

/-- Python membership test of a character in a string. -/
def containsChar (c : Char) (s : Str) : Bool := s.any (fun x => x = c)

/-- Python str.split with a one-character separator: split on every
occurrence, keeping empty fields. -/
def splitOnChar (sep : Char) : Str → List Str
  | [] => [[]]
  | c :: rest =>
    if c = sep then [] :: splitOnChar sep rest
    else
      match splitOnChar sep rest with
      | [] => [[c]]
      | h :: t => (c :: h) :: t

/-- Whether the pattern is an initial segment of the string. -/
def leadsWith : Str → Str → Bool
  | [], _ => true
  | _ :: _, [] => false
  | p :: ps, c :: cs => p = c && leadsWith ps cs

/-- Split a string at the first occurrence of a separator substring:
some (before, after) on success, none when the separator does not occur.
This is Python str.split with maxsplit one, and the occurrence test of
the Python in operator on substrings. -/
def splitFirst (sep : Str) : Str → Option (Str × Str)
  | [] => none
  | a :: rest =>
    if leadsWith sep (a :: rest) then some ([], (a :: rest).drop sep.length)
    else
      match splitFirst sep rest with
      | some pr => some (a :: pr.1, pr.2)
      | none => none

/-- The ordinal separator, the two characters dot and space. -/
def ordSep : Str := ['.', ' ']

/-- The numbering removal of search_screenshots.py line 82:
filename_part.split with separator dot-space and maxsplit one, last
element, when dot-space occurs; otherwise the string unchanged. -/
def stripNumbering (fp : Str) : Str :=
  match splitFirst ordSep fp with
  | some pr => pr.2
  | none => fp

/-- Python int on a nonempty string of decimal digits. -/
def natFromDigits (ds : Str) : Nat :=
  ds.foldl (fun n c => n * 10 + (c.toNat - 48)) 0

/-- The body of the per-line try block of search_screenshots.py lines
73 to 90, one reply line against the loaded descriptions. The error
value models the ValueError that int raises on an empty string when the
score part holds no digit; ok none models a line that falls through
without appending (guard failed, or the identifier is not a key); ok
(some t) models an appended triple. -/
def extractLine (descriptions : Store) (line : Str) :
    Except Unit (Option (Str × Str × Nat)) :=
  if containsChar ':' line && line.any Char.isDigit then
    if 2 ≤ (splitOnChar ':' line).length then
      if ((pyStrip ((splitOnChar ':' line).getD 1 [])).filter Char.isDigit).isEmpty then
        Except.error ()
      else
        match descriptions.lookup
            (stripNumbering (pyStrip ((splitOnChar ':' line).headD []))) with
        | some desc =>
          Except.ok (some (stripNumbering (pyStrip ((splitOnChar ':' line).headD [])),
            desc,
            natFromDigits ((pyStrip ((splitOnChar ':' line).getD 1 [])).filter Char.isDigit)))
        | none => Except.ok none
    else Except.ok none
  else Except.ok none

/-- The observable contribution of one reply line to the results list: a
parsed triple, or nothing when the line is skipped or its ValueError is
caught by the except clause. -/
def lineResult (descriptions : Store) (line : Str) :
    Option (Str × Str × Nat) :=
  match extractLine descriptions line with
  | Except.ok r => r
  | Except.error _ => none

/-- The results loop of search_screenshots.py lines 72 to 90: walk the
lines, append each extracted triple, and on a caught per-line exception
continue with the next line. -/
def parseLines (descriptions : Store) :
    List Str → List (Str × Str × Nat) → List (Str × Str × Nat)
  | [], acc => acc
  | line :: rest, acc =>
    match extractLine descriptions line with
    | Except.ok (some t) => parseLines descriptions rest (acc ++ [t])
    | Except.ok none => parseLines descriptions rest acc
    | Except.error _ => parseLines descriptions rest acc

/-- Python response_text.strip followed by split on newline. -/
def pyLines (txt : Str) : List Str := splitOnChar '\n' (pyStrip txt)

/-- Lines 67 to 92 of search_screenshots.py: parse the reply text and
truncate to top_k. -/
def parseResponse (txt : Str) (descriptions : Store) (top_k : Nat) :
    List (Str × Str × Nat) :=
  (parseLines descriptions (pyLines txt) []).take top_k

/-- The function search_screenshots of search_screenshots.py: empty store returns the
empty list at once; a failed model call (outer except) returns the empty
list; otherwise parse the reply. The query only shapes the outbound
prompt and does not affect parsing. -/
def search_screenshots (query : Str) (descriptions : Store) (top_k : Nat)
    (reply : Option Str) : List (Str × Str × Nat) :=
  if descriptions.isEmpty then []
  else
    match reply with
    | none => []
    | some txt => parseResponse txt descriptions top_k

/-- Claim-side per-line model, following the claim words of C2 as
stated: split at the first colon, the right part is everything after the
first colon, scan it for digits. Written for comparison with the code
model extractLine. -/
def claimLineAsStated (descriptions : Store) (line : Str) :
    Option (Str × Str × Nat) :=
  if containsChar ':' line && line.any Char.isDigit then
    match splitFirst [':'] line with
    | some pr =>
      if ((pyStrip pr.2).filter Char.isDigit).isEmpty then none
      else
        match descriptions.lookup (stripNumbering (pyStrip pr.1)) with
        | some desc =>
          some (stripNumbering (pyStrip pr.1), desc,
            natFromDigits ((pyStrip pr.2).filter Char.isDigit))
        | none => none
    | none => none
  else none

/-- Claim-side per-line model, amended: split at the first colon, the
right part is the segment strictly between the first and the second
colon (everything after the first colon when the line has exactly one),
scan it for digits. -/
def claimLineAmended (descriptions : Store) (line : Str) :
    Option (Str × Str × Nat) :=
  if containsChar ':' line && line.any Char.isDigit then
    match splitFirst [':'] line with
    | some pr =>
      if ((pyStrip (pr.2.takeWhile (fun c => c != ':'))).filter Char.isDigit).isEmpty then
        none
      else
        match descriptions.lookup (stripNumbering (pyStrip pr.1)) with
        | some desc =>
          some (stripNumbering (pyStrip pr.1), desc,
            natFromDigits ((pyStrip (pr.2.takeWhile (fun c => c != ':'))).filter Char.isDigit))
        | none => none
    | none => none
  else none

/-- The state of the persisted document at one path: no file, a file
that fails to parse as JSON, or a parsed mapping. -/
inductive FileContent
  | absent
  | corrupt
  | stored (m : Store)
deriving DecidableEq

/-- The file system, as a map from path to content. -/
abbrev FSys := Str → FileContent

/-- The function save_descriptions of index_screenshots.py lines 71 to 74: serialize
the full mapping and overwrite the document at the path in one
operation. -/
def save_descriptions (descriptions : Store) (file_path : Str)
    (fs : FSys) : FSys :=
  fun q => if q = file_path then FileContent.stored descriptions else fs q

/-- The function load_descriptions of index_screenshots.py lines 61 to 69 (and the
same logic in search_screenshots.py lines 22 to 34): a missing or
undecodable document degrades to the empty mapping; a parsed document is
returned as is. -/
def load_descriptions (file_path : Str) (fs : FSys) : Store :=
  match fs file_path with
  | FileContent.stored m => m
  | FileContent.absent => []
  | FileContent.corrupt => []

/-- The per-candidate loop of index_screenshots.py lines 98 to 114, over
an already discovered candidate list and a describe oracle. Returns the
final in-memory store together with the list of identifiers for which
the describer was invoked, in call order. A candidate already present as
a key is skipped with no call; a call returning the empty string adds
nothing; a nonempty description is inserted as a new entry. -/
def index_screenshots (describe : Str → Str) :
    List Str → Store → Store × List Str
  | [], descriptions => (descriptions, [])
  | f :: rest, descriptions =>
    if (descriptions.lookup f).isSome then
      index_screenshots describe rest descriptions
    else
      match index_screenshots describe rest
          (if (describe f).isEmpty then descriptions
           else descriptions ++ [(f, describe f)]) with
      | (s, calls) => (s, f :: calls)

/-- The function process_single_image of index_screenshots.py lines 120 to 132:
returns the resulting store, the boolean the function returns, and
whether the describer was invoked. -/
def process_single_image (describe : Str → Str) (image_path : Str)
    (descriptions : Store) : Store × Bool × Bool :=
  if (descriptions.lookup image_path).isSome then (descriptions, true, false)
  else if (describe image_path).isEmpty then (descriptions, false, true)
  else (descriptions ++ [(image_path, describe image_path)], true, true)

/-- The outcome of the /search endpoint of app.py: an HTTP 400 error
body, or an HTTP 200 result list. -/
inductive HttpResult
  | badRequest (msg : Str)
  | okJson (results : List (Str × Str × Nat))
deriving DecidableEq

/-- The /search endpoint of app.py lines 102 to 133: reject an empty
query, load the store, reject an empty store with a distinct error, and
otherwise rank with top_k five. -/
def searchEndpoint (query : Str) (fs : FSys) (file_path : Str)
    (reply : Option Str) : HttpResult :=
  if query.isEmpty then HttpResult.badRequest (str "No query provided")
  else if (load_descriptions file_path fs).isEmpty then
    HttpResult.badRequest (str "No screenshots indexed yet")
  else
    HttpResult.okJson
      (search_screenshots query (load_descriptions file_path fs) 5 reply)

/-- A one-entry store used to instantiate theorems on concrete input. -/
def sampleStore : Store := [(str "a.png", str "login page screenshot")]

/-- A two-key store used to instantiate the ingestion theorems. -/
def sampleStore2 : Store :=
  [(str "a.png", str "login page screenshot"),
   (str "b.png", str "red sunset over the sea")]

/-- A describer that succeeds on every path with a fixed description. -/
def okDescribe : Str → Str := fun _ => str "a plain description"

/-- A describer that fails on every path, as after a thrown exception. -/
def failDescribe : Str → Str := fun _ => []

/-- A file system with no file anywhere. -/
def emptyFS : FSys := fun _ => FileContent.absent

/-- A file system holding the sample store at every path. -/
def sampleFS : FSys := fun _ => FileContent.stored sampleStore

/-! ## Helper lemmas -/

theorem parseLines_eq_filterMap (d : Store) :
    ∀ (ls : List Str) (acc : List (Str × Str × Nat)),
      parseLines d ls acc = acc ++ ls.filterMap (lineResult d) := by
  intro ls
  induction ls with
  | nil => intro acc; simp [parseLines]
  | cons line rest ih =>
    intro acc
    rw [parseLines]
    rcases h : extractLine d line with e | r
    · simp [List.filterMap_cons, lineResult, h, ih]
    · rcases r with _ | t
      · simp [List.filterMap_cons, lineResult, h, ih]
      · simp only [List.filterMap_cons, lineResult, h]
        rw [ih (acc ++ [t])]
        simp

theorem lineResult_candidate (d : Store) (line : Str) (t : Str × Str × Nat)
    (h : lineResult d line = some t) :
    containsChar ':' line = true ∧ line.any Char.isDigit = true := by
  by_cases hg : (containsChar ':' line && line.any Char.isDigit) = true
  · exact Bool.and_eq_true_iff.mp hg
  · exfalso
    rw [lineResult, extractLine, if_neg hg] at h
    simp at h

theorem extractLine_ok_some (d : Store) (line : Str) (t : Str × Str × Nat)
    (h : extractLine d line = Except.ok (some t)) :
    List.lookup t.1 d = some t.2.1 := by
  rw [extractLine] at h
  split at h
  · split at h
    · split at h
      · exact absurd h (by simp)
      · split at h
        · rename_i hlook
          simp only [Except.ok.injEq, Option.some.injEq] at h
          subst h
          exact hlook
        · simp at h
    · simp at h
  · simp at h

theorem lineResult_lookup (d : Store) (line : Str) (t : Str × Str × Nat)
    (h : lineResult d line = some t) : List.lookup t.1 d = some t.2.1 := by
  have hx : extractLine d line = Except.ok (some t) := by
    rcases hext : extractLine d line with e | r
    · simp only [lineResult, hext] at h
      exact absurd h (by simp)
    · simp only [lineResult, hext] at h
      rw [h]
  exact extractLine_ok_some d line t hx

theorem lineResult_nil (line : Str) : lineResult [] line = none := by
  rcases hext : extractLine [] line with e | r
  · simp only [lineResult, hext]
  · simp only [lineResult, hext]
    rw [extractLine] at hext
    split at hext
    · split at hext
      · split at hext
        · exact Except.noConfusion hext
        · split at hext
          · rename_i hlook
            simp at hlook
          · simp only [Except.ok.injEq] at hext
            exact hext.symm
      · simp only [Except.ok.injEq] at hext
        exact hext.symm
    · simp only [Except.ok.injEq] at hext
      exact hext.symm

theorem splitOnChar_ne_nil (c : Char) : ∀ s : Str, splitOnChar c s ≠ [] := by
  intro s
  cases s with
  | nil => simp [splitOnChar]
  | cons a rest =>
    rw [splitOnChar]
    by_cases hac : a = c
    · simp [hac]
    · rw [if_neg hac]
      cases hr : splitOnChar c rest <;> simp

theorem splitOnChar_headD (c : Char) :
    ∀ s : Str, (splitOnChar c s).headD [] = s.takeWhile (fun x => x != c) := by
  intro s
  induction s with
  | nil => simp [splitOnChar]
  | cons a rest ih =>
    by_cases hac : a = c
    · subst hac
      simp [splitOnChar, List.takeWhile_cons]
    · rw [splitOnChar, if_neg hac]
      cases hr : splitOnChar c rest with
      | nil => exact absurd hr (splitOnChar_ne_nil c rest)
      | cons x t =>
        have hx : x = rest.takeWhile (fun y => y != c) := by
          rw [hr] at ih
          simpa using ih
        simp [List.takeWhile_cons, hac, hx]

theorem splitFirst_decomp (c : Char) :
    ∀ s : Str, containsChar c s = true →
      ∃ l r, splitFirst [c] s = some (l, r) ∧
        splitOnChar c s = l :: splitOnChar c r := by
  intro s
  induction s with
  | nil => intro h; simp [containsChar] at h
  | cons a rest ih =>
    intro h
    by_cases hac : a = c
    · subst hac
      refine ⟨[], rest, ?_, ?_⟩
      · rw [splitFirst]
        simp [leadsWith]
      · rw [splitOnChar]
        simp
    · have hrest : containsChar c rest = true := by
        simp only [containsChar, List.any_cons] at h ⊢
        rcases Bool.or_eq_true_iff.mp h with h1 | h1
        · exact absurd (of_decide_eq_true h1) hac
        · exact h1
      obtain ⟨l, r, h1, h2⟩ := ih hrest
      refine ⟨a :: l, r, ?_, ?_⟩
      · rw [splitFirst]
        have hlw : leadsWith [c] (a :: rest) = false := by
          simp [leadsWith]
          exact fun he => absurd he.symm hac
        rw [hlw]
        simp [h1]
      · rw [splitOnChar, if_neg hac, h2]

theorem splitOnChar_fields (c : Char) (s : Str) (h : containsChar c s = true) :
    ∃ l r, splitFirst [c] s = some (l, r) ∧
      (splitOnChar c s).headD [] = l ∧
      (splitOnChar c s).getD 1 [] = r.takeWhile (fun x => x != c) ∧
      2 ≤ (splitOnChar c s).length := by
  obtain ⟨l, r, h1, h2⟩ := splitFirst_decomp c s h
  refine ⟨l, r, h1, ?_, ?_, ?_⟩
  · rw [h2]
    rfl
  · rw [h2, List.getD_cons_succ]
    cases hr : splitOnChar c r with
    | nil => exact absurd hr (splitOnChar_ne_nil c r)
    | cons x t =>
      rw [List.getD_cons_zero]
      have hh := splitOnChar_headD c r
      rw [hr] at hh
      simpa using hh
  · rw [h2]
    cases hr : splitOnChar c r with
    | nil => exact absurd hr (splitOnChar_ne_nil c r)
    | cons x t => simp [hr]

theorem lineResult_eq_claimAmended (d : Store) (line : Str) :
    lineResult d line = claimLineAmended d line := by
  by_cases hg : (containsChar ':' line && line.any Char.isDigit) = true
  · have hc : containsChar ':' line = true := (Bool.and_eq_true_iff.mp hg).1
    obtain ⟨l, r, h1, hhead, hget, hlen⟩ := splitOnChar_fields ':' line hc
    rw [lineResult, extractLine, claimLineAmended, if_pos hg, if_pos hg, if_pos hlen,
      hget, hhead]
    simp only [h1]
    by_cases hdig :
        (((pyStrip (r.takeWhile (fun x => x != ':'))).filter Char.isDigit).isEmpty) = true
    · rw [if_pos hdig, if_pos hdig]
    · rw [if_neg hdig, if_neg hdig]
      cases hlook : List.lookup (stripNumbering (pyStrip l)) d with
      | none => rfl
      | some desc => rfl
  · rw [lineResult, extractLine, claimLineAmended, if_neg hg, if_neg hg]

theorem lookup_append_single_ne (f g : Str) (v : Str) (hfg : f ≠ g) :
    ∀ s : Store, List.lookup f (s ++ [(g, v)]) = List.lookup f s := by
  intro s
  induction s with
  | nil =>
    have hb : (f == g) = false := beq_eq_false_iff_ne.mpr hfg
    simp [List.lookup, hb]
  | cons kv rest ih =>
    cases kv with
    | mk k v0 =>
      rw [List.cons_append, List.lookup_cons, List.lookup_cons]
      cases hk : f == k with
      | true => rfl
      | false => exact ih

theorem index_cons_key (describe : Str → Str) (g : Str) (rest : List Str)
    (store : Store) (hk : (List.lookup g store).isSome = true) :
    index_screenshots describe (g :: rest) store =
      index_screenshots describe rest store := by
  rw [index_screenshots, if_pos hk]

theorem index_cons_not_key (describe : Str → Str) (g : Str) (rest : List Str)
    (store : Store) (hk : ¬(List.lookup g store).isSome = true) :
    index_screenshots describe (g :: rest) store =
      ((index_screenshots describe rest
          (if (describe g).isEmpty then store
           else store ++ [(g, describe g)])).1,
       g :: (index_screenshots describe rest
          (if (describe g).isEmpty then store
           else store ++ [(g, describe g)])).2) := by
  rw [index_screenshots, if_neg hk]

theorem index_skip_all (describe : Str → Str) :
    ∀ (cands : List Str) (store : Store),
      (∀ f ∈ cands, (List.lookup f store).isSome = true) →
      index_screenshots describe cands store = (store, []) := by
  intro cands
  induction cands with
  | nil => intro store _; rfl
  | cons g rest ih =>
    intro store h
    rw [index_cons_key describe g rest store (h g (by simp))]
    exact ih store (fun f hf => h f (by simp [hf]))

theorem index_skips_existing (describe : Str → Str) :
    ∀ (cands : List Str) (store : Store) (f : Str),
      (List.lookup f store).isSome = true →
      f ∉ (index_screenshots describe cands store).2 ∧
      List.lookup f (index_screenshots describe cands store).1 =
        List.lookup f store := by
  intro cands
  induction cands with
  | nil => intro store f hf; simp [index_screenshots]
  | cons g rest ih =>
    intro store f hf
    by_cases hk : (List.lookup g store).isSome = true
    · rw [index_cons_key describe g rest store hk]
      exact ih store f hf
    · rw [index_cons_not_key describe g rest store hk]
      have hfg : f ≠ g := by
        intro he
        rw [he] at hf
        exact hk hf
      have hstore : List.lookup f
          (if (describe g).isEmpty then store
           else store ++ [(g, describe g)]) = List.lookup f store := by
        by_cases hde : (describe g).isEmpty = true
        · rw [if_pos hde]
        · rw [if_neg hde]
          exact lookup_append_single_ne f g (describe g) hfg store
      have hfsome : (List.lookup f
          (if (describe g).isEmpty then store
           else store ++ [(g, describe g)])).isSome = true := by
        rw [hstore]
        exact hf
      obtain ⟨ih1, ih2⟩ := ih
        (if (describe g).isEmpty then store else store ++ [(g, describe g)])
        f hfsome
      constructor
      · intro hmem
        rcases List.mem_cons.mp hmem with he | hm
        · exact hfg he
        · exact ih1 hm
      · rw [ih2, hstore]

theorem index_fst_cons_not_key (describe : Str → Str) (g : Str)
    (rest : List Str) (store : Store)
    (hk : ¬(List.lookup g store).isSome = true) :
    (index_screenshots describe (g :: rest) store).1 =
      (index_screenshots describe rest
        (if (describe g).isEmpty then store
         else store ++ [(g, describe g)])).1 := by
  rw [index_cons_not_key describe g rest store hk]

theorem index_snd_cons_not_key (describe : Str → Str) (g : Str)
    (rest : List Str) (store : Store)
    (hk : ¬(List.lookup g store).isSome = true) :
    (index_screenshots describe (g :: rest) store).2 =
      g :: (index_screenshots describe rest
        (if (describe g).isEmpty then store
         else store ++ [(g, describe g)])).2 := by
  rw [index_cons_not_key describe g rest store hk]

theorem index_preserves_nonempty (describe : Str → Str) :
    ∀ (cands : List Str) (store : Store),
      (∀ kv ∈ store, kv.2 ≠ ([] : Str)) →
      ∀ kv ∈ (index_screenshots describe cands store).1, kv.2 ≠ ([] : Str) := by
  intro cands
  induction cands with
  | nil => intro store hinv; simpa [index_screenshots] using hinv
  | cons g rest ih =>
    intro store hinv
    by_cases hk : (List.lookup g store).isSome = true
    · rw [index_cons_key describe g rest store hk]
      exact ih store hinv
    · rw [index_fst_cons_not_key describe g rest store hk]
      refine ih (if (describe g).isEmpty then store
        else store ++ [(g, describe g)]) ?_
      intro kv hkv
      by_cases hde : (describe g).isEmpty = true
      · rw [if_pos hde] at hkv
        exact hinv kv hkv
      · rw [if_neg hde] at hkv
        rcases List.mem_append.mp hkv with hm | hm
        · exact hinv kv hm
        · have hkv2 : kv = (g, describe g) := by simpa using hm
          rw [hkv2]
          intro hemp
          exact hde (by rw [show describe g = [] from hemp]; rfl)

theorem index_failed_lookup (describe : Str → Str) :
    ∀ (cands : List Str) (store : Store) (f : Str),
      describe f = [] →
      List.lookup f (index_screenshots describe cands store).1 =
        List.lookup f store := by
  intro cands
  induction cands with
  | nil => intro store f _; rfl
  | cons g rest ih =>
    intro store f hfail
    by_cases hk : (List.lookup g store).isSome = true
    · rw [index_cons_key describe g rest store hk]
      exact ih store f hfail
    · rw [index_fst_cons_not_key describe g rest store hk]
      rw [ih (if (describe g).isEmpty then store
        else store ++ [(g, describe g)]) f hfail]
      by_cases hde : (describe g).isEmpty = true
      · rw [if_pos hde]
      · rw [if_neg hde]
        have hfg : f ≠ g := by
          intro he
          rw [← he, hfail] at hde
          exact hde rfl
        exact lookup_append_single_ne f g (describe g) hfg store

theorem index_failed_item_dropped (describe : Str → Str) (f : Str)
    (hfail : describe f = []) :
    ∀ (pre post : List Str) (store : Store),
      (index_screenshots describe (pre ++ f :: post) store).1 =
        (index_screenshots describe (pre ++ post) store).1 := by
  intro pre
  induction pre with
  | nil =>
    intro post store
    simp only [List.nil_append]
    by_cases hk : (List.lookup f store).isSome = true
    · rw [index_cons_key describe f post store hk]
    · rw [index_fst_cons_not_key describe f post store hk, hfail]
      simp
  | cons g pre ih =>
    intro post store
    simp only [List.cons_append]
    by_cases hk : (List.lookup g store).isSome = true
    · rw [index_cons_key describe g _ store hk,
        index_cons_key describe g _ store hk]
      exact ih post store
    · rw [index_fst_cons_not_key describe g _ store hk,
        index_fst_cons_not_key describe g _ store hk]
      exact ih post _

/-! ## Claim theorems -/

/-- Claim C1: the ranking-response parsing of search_screenshots never
raises. The accumulator loop, in which the only possible per-line
exception is caught and skips just that line, is total and returns
exactly the well-formed, identifier-matching lines, in reply order,
truncated to top_k; and a line contributes only if it is a candidate,
that is, it contains a colon separator and at least one decimal digit
anywhere in the line. -/
theorem claim_C1_parse_never_raises :
    (∀ (txt : Str) (d : Store) (k : Nat),
      parseResponse txt d k =
        ((pyLines txt).filterMap (lineResult d)).take k) ∧
    (∀ (d : Store) (line : Str) (t : Str × Str × Nat),
      lineResult d line = some t →
        containsChar ':' line = true ∧ line.any Char.isDigit = true) := by
  constructor
  · intro txt d k
    rw [parseResponse, parseLines_eq_filterMap]
    rfl
  · exact fun d line t h => lineResult_candidate d line t h

/-- Witness for C1 at a concrete well-formed line. -/
theorem claim_C1_parse_never_raises_witness :
    containsChar ':' (str "1. a.png: 87") = true ∧
    (str "1. a.png: 87").any Char.isDigit = true :=
  claim_C1_parse_never_raises.2 sampleStore (str "1. a.png: 87")
    (str "a.png", str "login page screenshot", 87) (by decide)

/-- Claim C2 counterexample: on the reply line "a: 1:2" with store
mapping "a" to "d", the code takes the segment between the first and
second colon (Python parts at index one) and returns confidence 1,
whereas the claim as stated scans everything after the first colon and
would return 12. -/
theorem claim_C2_counterexample :
    parseResponse (str "a: 1:2") [(str "a", str "d")] 5 =
      [(str "a", str "d", 1)] ∧
    claimLineAsStated [(str "a", str "d")] (str "a: 1:2") =
      some (str "a", str "d", 12) ∧
    (1 : Nat) ≠ 12 := by
  refine ⟨by decide, by decide, by decide⟩

/-- Claim C2 (amended): for every candidate line, the code splits at the
first colon into a left part (ordinal prefix stripped) and a right part
that is the segment strictly between the first and second colon
(everything after the first colon when the line has exactly one colon),
concatenates the digit characters of the right part into the
confidence, and silently discards a line whose right part holds no
digit. -/
theorem claim_C2_amended_right_part :
    ∀ (d : Store) (line : Str), lineResult d line = claimLineAmended d line :=
  fun d line => lineResult_eq_claimAmended d line

/-- Claim C3: every triple returned by search_screenshots carries an
identifier that is a key of the store snapshot, and its description is
the snapshot value looked up at that key; lines naming unknown
identifiers never reach the result. -/
theorem claim_C3_identifier_fidelity :
    ∀ (query : Str) (d : Store) (k : Nat) (reply : Option Str)
      (t : Str × Str × Nat),
      t ∈ search_screenshots query d k reply →
        List.lookup t.1 d = some t.2.1 := by
  intro q d k reply t ht
  rw [search_screenshots.eq_def] at ht
  by_cases hemp : d.isEmpty = true
  · rw [if_pos hemp] at ht
    simp at ht
  · rw [if_neg hemp] at ht
    cases reply with
    | none => simp at ht
    | some txt =>
      have ht2 : t ∈ parseResponse txt d k := ht
      rw [parseResponse] at ht2
      have h2 : t ∈ parseLines d (pyLines txt) [] := List.take_subset k _ ht2
      rw [parseLines_eq_filterMap] at h2
      simp only [List.nil_append] at h2
      obtain ⟨line, _, hline⟩ := List.mem_filterMap.mp h2
      exact lineResult_lookup d line t hline

/-- Witness for C3 at a concrete reply and store. -/
theorem claim_C3_identifier_fidelity_witness :
    List.lookup (str "a.png") sampleStore =
      some (str "login page screenshot") :=
  claim_C3_identifier_fidelity (str "query") sampleStore 5
    (some (str "1. a.png: 87")) (str "a.png", str "login page screenshot", 87)
    (by decide)

/-- Claim C4: the sequence search_screenshots returns is the surviving
parsed triples in the order their lines appear in the reply, truncated
to at most top_k, so its length never exceeds top_k and no re-sorting by
confidence happens. -/
theorem claim_C4_order_and_bound :
    (∀ (query : Str) (d : Store) (k : Nat) (reply : Option Str),
      (search_screenshots query d k reply).length ≤ k) ∧
    (∀ (query : Str) (d : Store) (k : Nat) (txt : Str),
      search_screenshots query d k (some txt) =
        (parseLines d (pyLines txt) []).take k) := by
  constructor
  · intro q d k reply
    rw [search_screenshots.eq_def]
    by_cases hemp : d.isEmpty = true
    · rw [if_pos hemp]
      simp
    · rw [if_neg hemp]
      cases reply with
      | none => simp
      | some txt =>
        show (parseResponse txt d k).length ≤ k
        rw [parseResponse]
        exact List.length_take_le k _
  · intro q d k txt
    rw [search_screenshots]
    by_cases hemp : d.isEmpty = true
    · rw [if_pos hemp]
      have hd : d = [] := List.isEmpty_iff.mp hemp
      subst hd
      rw [parseLines_eq_filterMap]
      rw [List.filterMap_eq_nil_iff.mpr (fun a _ => lineResult_nil a)]
      simp
    · rw [if_neg hemp]
      rfl

/-- Claim C5: saving a mapping and loading it back yields the same
mapping, whatever was persisted at the path before (absent, corrupt, or
any prior document): save fully replaces prior content. -/
theorem claim_C5_store_round_trip :
    ∀ (m : Store) (p : Str) (fs : FSys),
      load_descriptions p (save_descriptions m p fs) = m := by
  intro m p fs
  simp [load_descriptions, save_descriptions]

/-- Claim C9: every confidence search_screenshots returns is built by
concatenating only the digit characters of the score field, hence
non-negative as an integer; a line scoring "-5" drops the minus sign and
yields 5, and a score of 150 passes through unclamped. -/
theorem claim_C9_confidence_nonnegative :
    (∀ (query : Str) (d : Store) (k : Nat) (reply : Option Str)
      (t : Str × Str × Nat),
      t ∈ search_screenshots query d k reply → (0 : Int) ≤ (t.2.2 : Int)) ∧
    parseResponse (str "1. a.png: -5") sampleStore 5 =
      [(str "a.png", str "login page screenshot", 5)] ∧
    parseResponse (str "a.png: 150") sampleStore 5 =
      [(str "a.png", str "login page screenshot", 150)] := by
  refine ⟨?_, by decide, by decide⟩
  intro q d k reply t _
  omega

/-- Witness for C9 at a concrete reply and store. -/
theorem claim_C9_confidence_nonnegative_witness :
    (0 : Int) ≤ ((90 : Nat) : Int) :=
  claim_C9_confidence_nonnegative.1 (str "q") sampleStore 5
    (some (str "a.png: 90")) (str "a.png", str "login page screenshot", 90)
    (by decide)

/-- Claim C10: no deduplication across reply lines: a reply naming the
same store key on two well-formed lines yields that identifier twice, in
line order. -/
theorem claim_C10_no_dedup :
    parseResponse (str "1. a.png: 90\n2. a.png: 80") sampleStore 5 =
      [(str "a.png", str "login page screenshot", 90),
       (str "a.png", str "login page screenshot", 80)] := by
  decide

/-- Claim C6 counterexample: with a describer that fails on every path,
a first batch run over one new candidate adds nothing to the store, so a
second identical run invokes the describer for that candidate again: its
call list equals the candidate again, refuting that the second run makes
no additional describer calls. -/
theorem claim_C6_counterexample :
    (index_screenshots failDescribe [str "c.png"]
        (index_screenshots failDescribe [str "c.png"] ([] : Store)).1).2 =
      [str "c.png"] ∧
    [str "c.png"] ≠ ([] : List Str) := by
  refine ⟨by decide, by decide⟩

/-- Claim C6 (amended): a candidate whose identifier is already a key is
skipped entirely by both ingestion modes: its stored description is left
unchanged and the describer is not invoked for it; consequently a second
identical batch run makes no describer calls and no store changes
provided every candidate ended up indexed by the first run (a candidate
whose describe failed is retried by the second run). -/
theorem claim_C6_dedup_amended :
    (∀ (describe : Str → Str) (cands : List Str) (store : Store) (f : Str),
      (List.lookup f store).isSome = true →
      f ∉ (index_screenshots describe cands store).2 ∧
      List.lookup f (index_screenshots describe cands store).1 =
        List.lookup f store) ∧
    (∀ (describe : Str → Str) (p : Str) (store : Store),
      (List.lookup p store).isSome = true →
      process_single_image describe p store = (store, true, false)) ∧
    (∀ (describe : Str → Str) (cands : List Str) (store : Store),
      (∀ f ∈ cands,
        (List.lookup f (index_screenshots describe cands store).1).isSome
          = true) →
      index_screenshots describe cands
          (index_screenshots describe cands store).1 =
        ((index_screenshots describe cands store).1, [])) := by
  refine ⟨?_, ?_, ?_⟩
  · exact fun describe cands store f hf =>
      index_skips_existing describe cands store f hf
  · intro describe p store hp
    rw [process_single_image, if_pos hp]
  · intro describe cands store h
    exact index_skip_all describe cands _ h

/-- Witness for C6 (amended) on concrete stores and describers. -/
theorem claim_C6_dedup_amended_witness :
    (str "a.png") ∉ (index_screenshots okDescribe [str "c.png"] sampleStore).2 ∧
    process_single_image okDescribe (str "a.png") sampleStore =
      (sampleStore, true, false) ∧
    index_screenshots okDescribe [str "c.png"]
        (index_screenshots okDescribe [str "c.png"] sampleStore).1 =
      ((index_screenshots okDescribe [str "c.png"] sampleStore).1, []) :=
  ⟨(claim_C6_dedup_amended.1 okDescribe [str "c.png"] sampleStore (str "a.png")
      (by decide)).1,
   claim_C6_dedup_amended.2.1 okDescribe (str "a.png") sampleStore (by decide),
   claim_C6_dedup_amended.2.2 okDescribe [str "c.png"] sampleStore (by decide)⟩

/-- Claim C7: ingestion preserves the invariant that every stored key
has a non-empty description: a failed describe (empty string) never
creates or changes the entry for that identifier, the failing item
contributes nothing while the rest of the batch proceeds as if it were
absent, and the single-item path preserves the invariant as well. -/
theorem claim_C7_nonempty_invariant :
    (∀ (describe : Str → Str) (cands : List Str) (store : Store),
      (∀ kv ∈ store, kv.2 ≠ ([] : Str)) →
      ∀ kv ∈ (index_screenshots describe cands store).1, kv.2 ≠ ([] : Str)) ∧
    (∀ (describe : Str → Str) (cands : List Str) (store : Store) (f : Str),
      describe f = [] →
      List.lookup f (index_screenshots describe cands store).1 =
        List.lookup f store) ∧
    (∀ (describe : Str → Str) (f : Str), describe f = [] →
      ∀ (pre post : List Str) (store : Store),
        (index_screenshots describe (pre ++ f :: post) store).1 =
          (index_screenshots describe (pre ++ post) store).1) ∧
    (∀ (describe : Str → Str) (p : Str) (store : Store),
      (∀ kv ∈ store, kv.2 ≠ ([] : Str)) →
      ∀ kv ∈ (process_single_image describe p store).1, kv.2 ≠ ([] : Str)) := by
  refine ⟨?_, ?_, ?_, ?_⟩
  · exact fun describe cands store h =>
      index_preserves_nonempty describe cands store h
  · exact fun describe cands store f h =>
      index_failed_lookup describe cands store f h
  · exact fun describe f h pre post store =>
      index_failed_item_dropped describe f h pre post store
  · intro describe p store hinv kv hkv
    rw [process_single_image] at hkv
    by_cases hk : (List.lookup p store).isSome = true
    · rw [if_pos hk] at hkv
      exact hinv kv hkv
    · rw [if_neg hk] at hkv
      by_cases hde : (describe p).isEmpty = true
      · rw [if_pos hde] at hkv
        exact hinv kv hkv
      · rw [if_neg hde] at hkv
        have hkv2 : kv ∈ store ++ [(p, describe p)] := hkv
        rcases List.mem_append.mp hkv2 with hm | hm
        · exact hinv kv hm
        · have he : kv = (p, describe p) := by simpa using hm
          rw [he]
          intro hemp
          exact hde (by rw [show describe p = [] from hemp]; rfl)

/-- Witness for C7 on concrete stores, candidates and describers. -/
theorem claim_C7_nonempty_invariant_witness :
    (str "c.png", str "a plain description").2 ≠ ([] : Str) ∧
    List.lookup (str "c.png")
        (index_screenshots failDescribe [str "c.png"] sampleStore).1 =
      List.lookup (str "c.png") sampleStore ∧
    (index_screenshots failDescribe ([] ++ (str "c.png") :: []) sampleStore).1 =
      (index_screenshots failDescribe ([] ++ []) sampleStore).1 ∧
    (str "a.png", str "login page screenshot").2 ≠ ([] : Str) :=
  ⟨claim_C7_nonempty_invariant.1 okDescribe [str "c.png"] sampleStore
      (by decide) (str "c.png", str "a plain description") (by decide),
   claim_C7_nonempty_invariant.2.1 failDescribe [str "c.png"] sampleStore
      (str "c.png") rfl,
   claim_C7_nonempty_invariant.2.2.1 failDescribe (str "c.png") rfl [] []
      sampleStore,
   claim_C7_nonempty_invariant.2.2.2 okDescribe (str "c.png") sampleStore
      (by decide) (str "a.png", str "login page screenshot") (by decide)⟩

/-- Claim C8: at the operation level, ranking against an empty store is
rejected as a precondition violation with a distinct error, different
from an empty success, and a store that reaches the ranker through the
search endpoint is never empty. -/
theorem claim_C8_empty_store_precondition :
    (∀ (q : Str) (fs : FSys) (p : Str) (reply : Option Str),
      q ≠ [] → load_descriptions p fs = [] →
      searchEndpoint q fs p reply =
        HttpResult.badRequest (str "No screenshots indexed yet")) ∧
    (∀ (msg : Str) (res : List (Str × Str × Nat)),
      HttpResult.badRequest msg ≠ HttpResult.okJson res) ∧
    (∀ (q : Str) (fs : FSys) (p : Str) (reply : Option Str)
      (res : List (Str × Str × Nat)),
      searchEndpoint q fs p reply = HttpResult.okJson res →
        load_descriptions p fs ≠ []) := by
  refine ⟨?_, ?_, ?_⟩
  · intro q fs p reply hq hload
    have hqe : ¬(q.isEmpty = true) := fun h => hq (List.isEmpty_iff.mp h)
    rw [searchEndpoint, if_neg hqe,
      if_pos (List.isEmpty_iff.mpr hload)]
  · intro msg res h
    exact HttpResult.noConfusion h
  · intro q fs p reply res h hload
    rw [searchEndpoint] at h
    by_cases hqe : q.isEmpty = true
    · rw [if_pos hqe] at h
      exact HttpResult.noConfusion h
    · rw [if_neg hqe] at h
      rw [if_pos (List.isEmpty_iff.mpr hload)] at h
      exact HttpResult.noConfusion h

/-- Witness for C8 on a concrete query, file system and reply. -/
theorem claim_C8_empty_store_precondition_witness :
    searchEndpoint (str "q") emptyFS (str "p") none =
      HttpResult.badRequest (str "No screenshots indexed yet") ∧
    HttpResult.badRequest (str "No screenshots indexed yet") ≠
      HttpResult.okJson [] ∧
    load_descriptions (str "p") sampleFS ≠ [] :=
  ⟨claim_C8_empty_store_precondition.1 (str "q") emptyFS (str "p") none
      (by decide) rfl,
   claim_C8_empty_store_precondition.2.1 (str "No screenshots indexed yet") [],
   claim_C8_empty_store_precondition.2.2 (str "q") sampleFS (str "p") none []
      (by decide)⟩
